import Mathlib

/-!
Verification development for the `dirtio-http` repository: a shallow
embedding of its HTTP/1.1 codec (`src/codec.rs`) and framed transport
(`src/framed.rs`), with theorems checking the natural-language
specification against the code.

Byte buffers are modelled as `List Nat` (each element an octet value).
The request-head parser used by `HttpCodec::decode` lives in the external
`httparse` crate, whose source is not part of this repository; it is
modelled from the spec's wire-format description (spec sections 4.2 and 6).
Likewise the `http` crate's canonical reason phrases are modelled from the
spec.  Everything else is translated directly from the Rust sources.
-/

namespace DirtioHttp

/-- Bytes of a string literal (ASCII text), used to transcribe the string
literals appearing in the Rust source into byte lists. -/
def strBytes (s : String) : List Nat :=
  s.data.map Char.toNat

/-- Parse errors of the modelled `httparse` request parser.  In the Rust
code these become `io::Error` values via the `map_err` in
`HttpCodec::decode` (codec.rs line 87). -/
inductive PErr where
  | token
  | newline
  | version
  | tooManyHeaders
  | headerName
  | headerValue
  deriving DecidableEq, Repr

/-- Outcome of one parsing step: `done` mirrors `httparse::Status::Complete`,
`more` mirrors `httparse::Status::Partial`, `fail` a parse error. -/
inductive PStep (α : Type) where
  | done (a : α)
  | more
  | fail (e : PErr)
  deriving DecidableEq, Repr

/-- Map over the `done` value of a parsing step. -/
def PStep.map {α β : Type} (f : α → β) : PStep α → PStep β
  | .done a => .done (f a)
  | .more => .more
  | .fail e => .fail e

/-- Sequence two parsing steps, propagating `more` and `fail`. -/
def PStep.bind {α β : Type} : PStep α → (α → PStep β) → PStep β
  | .done a, f => f a
  | .more, _ => .more
  | .fail e, _ => .fail e

/-- Carriage return or line feed test. -/
def crlfByte (b : Nat) : Bool := b = 13 || b = 10

/-- Space or horizontal tab test (optional whitespace after a header colon). -/
def isSpTab (b : Nat) : Bool := b = 32 || b = 9

/-- Modelled from the spec: `httparse` token scanning.  Collect bytes up to
the byte `stop` (which is consumed), answering `more` if the input ends
first and the error `e` if a byte satisfying `isBad` is met first. -/
def takeUntilByte (stop : Nat) (isBad : Nat → Bool) (e : PErr) :
    List Nat → PStep (List Nat × List Nat)
  | [] => .more
  | c :: rest =>
    if c = stop then .done ([], rest)
    else if isBad c then .fail e
    else (takeUntilByte stop isBad e rest).map fun pr => (c :: pr.1, pr.2)

/-- Modelled from the spec: match the exact byte sequence `pat` at the head
of the input, failing with `e` on a mismatch. -/
def expectBytes : List Nat → PErr → List Nat → PStep (List Nat)
  | [], _, s => .done s
  | _ :: _, _, [] => .more
  | q :: qs, e, c :: cs => if c = q then expectBytes qs e cs else .fail e

/-- Modelled from the spec: a header value runs until the CRLF ending its
line; a stray CR or LF inside the value is malformed. -/
def takeValue : List Nat → PStep (List Nat × List Nat)
  | [] => .more
  | c :: rest =>
    if c = 13 then
      match rest with
      | [] => .more
      | d :: rem => if d = 10 then .done ([], rem) else .fail .headerValue
    else if c = 10 then .fail .headerValue
    else (takeValue rest).map fun pr => (c :: pr.1, pr.2)

/-- Modelled from the spec: the minor version digit after `HTTP/1.` must be
0 or 1 (anything else is a version error), followed by CRLF. -/
def versionDigit : List Nat → PStep (Nat × List Nat)
  | [] => .more
  | c :: r2 =>
    if c = 48 then (expectBytes [13, 10] .newline r2).map fun rem => (0, rem)
    else if c = 49 then (expectBytes [13, 10] .newline r2).map fun rem => (1, rem)
    else .fail .version

/-- Modelled from the spec: the request line ends `HTTP/1.<digit> CRLF`. -/
def parseVersion (src : List Nat) : PStep (Nat × List Nat) :=
  (expectBytes (strBytes "HTTP/1.") .version src).bind versionDigit

/-- Modelled from the spec: one `Name: value CRLF` header line; the name
runs up to the colon, then optional spaces/tabs, then the value. -/
def parseHeaderLine (src : List Nat) : PStep ((List Nat × List Nat) × List Nat) :=
  (takeUntilByte 58 crlfByte .headerName src).bind fun pr =>
    if pr.1.isEmpty then .fail .headerName
    else (takeValue (pr.2.dropWhile isSpTab)).map fun vr => ((pr.1, vr.1), vr.2)

/-- Terminating blank line of the header block: a CR has been seen, a LF
must follow. -/
def headersEnd : List Nat → PStep (List (List Nat × List Nat) × List Nat)
  | [] => .more
  | d :: rem => if d = 10 then .done ([], rem) else .fail .newline

/-- Modelled from the spec: the header block, at most `avail` header lines
(the codec passes 64, the size of its `httparse::EMPTY_HEADER` array);
a further header line when no slot remains is a too-many-headers error. -/
def parseHeaders : Nat → List Nat → PStep (List (List Nat × List Nat) × List Nat)
  | _, [] => .more
  | 0, c :: rest =>
    if c = 13 then headersEnd rest else .fail .tooManyHeaders
  | a + 1, c :: rest =>
    if c = 13 then headersEnd rest
    else
      (parseHeaderLine (c :: rest)).bind fun hr =>
        (parseHeaders a hr.2).map fun t => (hr.1 :: t.1, t.2)

/-- The parsed request struct of `httparse`: fields start out absent and
are filled in as parsing proceeds. -/
structure HReq where
  method : Option (List Nat)
  path : Option (List Nat)
  version : Option Nat
  headers : List (List Nat × List Nat)
  deriving DecidableEq, Repr

/-- Modelled from the spec: `httparse::Request::parse` for the wire format
`METHOD SP target SP HTTP/1.1 CRLF` + header lines + blank `CRLF`
(spec section 6).  On completion it yields the filled request struct and
the unconsumed remainder of the buffer (the Rust API reports the same
information as a byte offset). -/
def parse (maxHeaders : Nat) (src : List Nat) : PStep (HReq × List Nat) :=
  (takeUntilByte 32 crlfByte .token src).bind fun mp =>
    if mp.1.isEmpty then .fail .token
    else
      (takeUntilByte 32 crlfByte .token mp.2).bind fun pp =>
        if pp.1.isEmpty then .fail .token
        else
          (parseVersion pp.2).bind fun vv =>
            (parseHeaders maxHeaders vv.2).map fun hh =>
              ({ method := some mp.1, path := some pp.1,
                 version := some vv.1, headers := hh.1 }, hh.2)

/-- The decoded frame: `http::Request` restricted to what
`HttpCodec::decode` fills in (method, uri, version `HTTP_11`, headers in
insertion order, unit body).  `version = 11` denotes `Version::HTTP_11`. -/
structure HttpRequest where
  method : List Nat
  uri : List Nat
  version : Nat
  headers : List (List Nat × List Nat)
  deriving DecidableEq, Repr

/-- Error values produced on the decode path, all carried as `io::Error`
in the Rust code: a wrapped parse error (codec.rs line 87), the
"version not supported" error (line 96), and the "remaining bytes" error
of `decode_eof` (line 26). -/
inductive HttpError where
  | parseErr (e : PErr)
  | versionNotSupported
  | remainingBytes
  deriving DecidableEq, Repr

/-- Result of one `decode` / `decode_eof` call.  The Rust signature is
`Result<Option<Item>, io::Error>` on a `&mut BytesMut` buffer; here the
buffer after the call is returned explicitly.  `panicked` models reaching
an `unwrap` on a missing value. -/
inductive DecodeResult where
  | ok (frame : Option HttpRequest) (src : List Nat)
  | err (e : HttpError) (src : List Nat)
  | panicked
  deriving DecidableEq, Repr

/-- `HttpCodec::decode` (codec.rs lines 81-117): run the parser with 64
header slots; `Partial` is `Ok(None)` with the buffer untouched; on a
complete head the version must be exactly HTTP/1.1, then method and path
are unwrapped, the headers copied in order, and `src.split_to(offset)`
consumes the parsed prefix. -/
def decode (src : List Nat) : DecodeResult :=
  match parse 64 src with
  | .more => .ok none src
  | .fail e => .err (.parseErr e) src
  | .done (r, rem) =>
    if r.version = some 1 then
      match r.method, r.path with
      | some m, some p =>
        .ok (some { method := m, uri := p, version := 11, headers := r.headers })
          (src.drop (src.length - rem.length))
      | _, _ => .panicked
    else .err .versionNotSupported src

/-- The `Decoder::decode_eof` default method (codec.rs lines 19-30): one
`decode` call; if it yields no frame, succeed only when the buffer is now
empty, otherwise fail with the "remaining bytes" error. -/
def decode_eof (src : List Nat) : DecodeResult :=
  match decode src with
  | .ok (some f) s => .ok (some f) s
  | .ok none s => if s = [] then .ok none s else .err .remainingBytes s
  | .err e s => .err e s
  | .panicked => .panicked

/-- Modelled from the spec: `StatusCode::canonical_reason` of the external
`http` crate — the known canonical reason phrase of a status code, `none`
for an unmapped code. -/
def canonicalReason (code : Nat) : Option String :=
  match code with
  | 100 => some "Continue"
  | 101 => some "Switching Protocols"
  | 200 => some "OK"
  | 201 => some "Created"
  | 202 => some "Accepted"
  | 203 => some "Non-Authoritative Information"
  | 204 => some "No Content"
  | 205 => some "Reset Content"
  | 206 => some "Partial Content"
  | 300 => some "Multiple Choices"
  | 301 => some "Moved Permanently"
  | 302 => some "Found"
  | 303 => some "See Other"
  | 304 => some "Not Modified"
  | 305 => some "Use Proxy"
  | 307 => some "Temporary Redirect"
  | 308 => some "Permanent Redirect"
  | 400 => some "Bad Request"
  | 401 => some "Unauthorized"
  | 402 => some "Payment Required"
  | 403 => some "Forbidden"
  | 404 => some "Not Found"
  | 405 => some "Method Not Allowed"
  | 406 => some "Not Acceptable"
  | 407 => some "Proxy Authentication Required"
  | 408 => some "Request Timeout"
  | 409 => some "Conflict"
  | 410 => some "Gone"
  | 411 => some "Length Required"
  | 412 => some "Precondition Failed"
  | 413 => some "Payload Too Large"
  | 414 => some "URI Too Long"
  | 415 => some "Unsupported Media Type"
  | 416 => some "Range Not Satisfiable"
  | 417 => some "Expectation Failed"
  | 500 => some "Internal Server Error"
  | 501 => some "Not Implemented"
  | 502 => some "Bad Gateway"
  | 503 => some "Service Unavailable"
  | 504 => some "Gateway Timeout"
  | 505 => some "HTTP Version Not Supported"
  | _ => none

/-- The response value consumed by `HttpCodec::encode`: status code, header
mapping, body bytes.  A header value is `some` text when
`HeaderValue::to_str` succeeds and `none` when the value is not
representable as printable text. -/
structure HttpResponse where
  status : Nat
  headers : List (String × Option String)
  body : List Nat
  deriving DecidableEq, Repr

/-- Result of one `encode` call.  The Rust signature is
`Result<(), io::Error>` appending into a `BytesMut`; `ok` carries the
output buffer after the call, `ioErr` mirrors the `Err` case of that
signature (never produced by this encoder's body), and `panicked` models
reaching an `unwrap` on a missing value. -/
inductive EncodeResult where
  | ok (dst : List Nat)
  | ioErr
  | panicked
  deriving DecidableEq, Repr

/-- The `format!` string of codec.rs lines 45-56: status line, fixed server
header, `Date` header (from the wall clock, passed here as `date`), and
`Content-Length` header. -/
def statusLine (status : Nat) (reason date : String) (len : Nat) : String :=
  "HTTP/1.1 " ++ toString status ++ " " ++ reason ++ "\x0d\x0a" ++
    "Server: dirtio-http\x0d\x0a" ++
    "Date: " ++ date ++ "\x0d\x0a" ++
    "Content-Length: " ++ toString len ++ "\x0d\x0a"

/-- One `{}: {}\r\n` header line of codec.rs lines 60-64; a value that is
not printable text (`to_str` failed) is written as the empty string. -/
def renderHeader (kv : String × Option String) : String :=
  kv.1 ++ ": " ++ (kv.2.getD "") ++ "\x0d\x0a"

/-- `HttpCodec::encode` (codec.rs lines 38-73): the canonical reason of the
status is unwrapped (a panic when absent), then the status-line block, one
line per response header, a blank line and the raw body bytes are appended
to `dst` in order.  The wall-clock `Date` value is the parameter `date`. -/
def encode (resp : HttpResponse) (date : String) (dst : List Nat) : EncodeResult :=
  match canonicalReason resp.status with
  | none => .panicked
  | some reason =>
    .ok (dst ++ strBytes (statusLine resp.status reason date resp.body.length)
      ++ (resp.headers.map fun kv => strBytes (renderHeader kv)).flatten
      ++ strBytes "\x0d\x0a"
      ++ resp.body)

/-- The read half of the transport state (`ReadFrame` in framed.rs lines
157-162).  The fixed 8192-byte scratch chunk `tmp_buf` is not part of the
logical state; delivered network chunks stand in for its contents. -/
structure ReadFrame where
  eof : Bool
  readable : Bool
  buffer : List Nat
  deriving DecidableEq, Repr

/-- Outcome of one `poll_next` call on the stream of decoded frames
(`Poll<Option<Result<Item, Error>>>` in Rust). -/
inductive NextPoll where
  | frame (f : HttpRequest)
  | errorOut (e : HttpError)
  | finished
  | pending
  | panicked
  deriving DecidableEq, Repr

/-- The body of the `poll_next` loop before the network read (framed.rs
lines 45-64): when `readable`, at EOF run `decode_eof` and return its
outcome; otherwise run `decode` — a frame or an error returns at once,
`Ok(None)` clears `readable` and falls through to the read. -/
def drainStep (st : ReadFrame) : (NextPoll × ReadFrame) ⊕ ReadFrame :=
  if st.readable then
    if st.eof then
      match decode_eof st.buffer with
      | .ok (some f) s => .inl (.frame f, { st with buffer := s })
      | .ok none s => .inl (.finished, { st with buffer := s })
      | .err e s => .inl (.errorOut e, { st with buffer := s })
      | .panicked => .inl (.panicked, st)
    else
      match decode st.buffer with
      | .ok (some f) s => .inl (.frame f, { st with buffer := s })
      | .ok none s => .inr { st with readable := false, buffer := s }
      | .err e s => .inl (.errorOut e, { st with buffer := s })
      | .panicked => .inl (.panicked, st)
  else .inr st

/-- Effect of one raw-stream read (framed.rs lines 71-79): a zero-byte
read marks EOF, otherwise the bytes are appended to the buffer; either way
`readable` is set, owing a decode attempt. -/
def applyChunk (st : ReadFrame) (chunk : List Nat) : ReadFrame :=
  if chunk.isEmpty then { st with eof := true, readable := true }
  else { st with buffer := st.buffer ++ chunk, readable := true }

/-- `HttpFramed::poll_next` (framed.rs lines 37-81).  `net` is the sequence
of chunks the raw stream will deliver, one per `poll_read`; an exhausted
`net` models a read that returns `Poll::Pending`.  The unconsumed tail of
`net` is returned, so the number of network reads performed is visible as
the difference in its length. -/
def poll_next (st : ReadFrame) (net : List (List Nat)) :
    NextPoll × ReadFrame × List (List Nat) :=
  match drainStep st, net with
  | .inl out, _ => (out.1, out.2, net)
  | .inr st2, [] => (.pending, st2, [])
  | .inr st2, chunk :: rest => poll_next (applyChunk st2 chunk) rest

/-- The write half of the transport state (`WriteFrame` in framed.rs lines
164-167). -/
structure WriteFrame where
  backpressure_boundary : Nat
  buffer : List Nat
  deriving DecidableEq, Repr

/-- The initial capacity constant of framed.rs line 149, reused as the
default backpressure boundary. -/
def INITIAL_CAPACITY : Nat := 8 * 1024

/-- `WriteFrame::default` (framed.rs lines 180-187): empty buffer,
backpressure boundary 8192. -/
def WriteFrame.default : WriteFrame :=
  { backpressure_boundary := INITIAL_CAPACITY, buffer := [] }

/-- Outcome of one `poll_flush` / `poll_ready` call
(`Poll<Result<(), Error>>` in Rust). -/
inductive FlushPoll where
  | ok
  | errWriteZero
  | pending
  deriving DecidableEq, Repr

/-- `HttpFramed::poll_flush` (framed.rs lines 110-133): while the buffer is
non-empty, perform one raw write; the buffer is advanced by exactly the
reported count, and a zero-byte write is the fatal write-zero error.
`writes` is the sequence of byte counts the raw stream will report, one
per `poll_write`; an exhausted `writes` models `Poll::Pending`.  The final
`inner.poll_flush` on the raw stream is an external collaborator modelled
as immediately ready.  Returns the outcome, the remaining buffer, and the
unconsumed tail of `writes`. -/
def poll_flush : List Nat → List Nat → FlushPoll × List Nat × List Nat
  | buf, writes =>
    if buf.isEmpty then (.ok, buf, writes)
    else
      match writes with
      | [] => (.pending, buf, [])
      | n :: ws =>
        if n = 0 then (.errWriteZero, buf.drop n, ws)
        else poll_flush (buf.drop n) ws

/-- `HttpFramed::poll_ready` (framed.rs lines 91-102): if the write buffer
already exceeds the backpressure boundary, delegate to `poll_flush`;
otherwise ready immediately with no I/O. -/
def poll_ready (ws : WriteFrame) (writes : List Nat) : FlushPoll × List Nat × List Nat :=
  if ws.buffer.length > ws.backpressure_boundary then poll_flush ws.buffer writes
  else (.ok, ws.buffer, writes)

/-- A flush that ends in the `ok` outcome has written the whole buffer:
the loop of `poll_flush` only exits successfully once the buffer is empty. -/
lemma flush_ok_empty : ∀ (w buf b2 w2 : List Nat),
    poll_flush buf w = (.ok, b2, w2) → b2 = [] := by
  intro w
  induction w with
  | nil =>
    intro buf b2 w2 h
    unfold poll_flush at h
    cases buf with
    | nil =>
      simp at h
      exact h.1
    | cons c rest => simp at h
  | cons n ws ih =>
    intro buf b2 w2 h
    unfold poll_flush at h
    cases buf with
    | nil =>
      simp at h
      exact h.1
    | cons c rest =>
      by_cases hn : n = 0
      · simp [hn] at h
      · simp [hn] at h
        exact ih _ _ _ h

/-- With enough positive write results to cover the buffer, the flush loop
runs to the `ok` outcome with an empty buffer. -/
lemma poll_flush_drains : ∀ (ws buf : List Nat), (∀ m ∈ ws, 0 < m) →
    buf.length ≤ ws.sum → ∃ ws2, poll_flush buf ws = (.ok, [], ws2) := by
  intro ws
  induction ws with
  | nil =>
    intro buf _ hlen
    have hb : buf = [] := List.eq_nil_of_length_eq_zero (by simpa using hlen)
    exact ⟨[], by simp [poll_flush, hb]⟩
  | cons n ws ih =>
    intro buf hpos hlen
    cases buf with
    | nil => exact ⟨n :: ws, by simp [poll_flush]⟩
    | cons c rest =>
      have hn : n ≠ 0 := by
        have := hpos n (by simp)
        omega
      have htail : ∀ m ∈ ws, 0 < m := fun m hm => hpos m (by simp [hm])
      have hlen2 : ((c :: rest).drop n).length ≤ ws.sum := by
        rw [List.length_drop]
        rw [List.sum_cons] at hlen
        omega
      obtain ⟨ws2, hws2⟩ := ih ((c :: rest).drop n) htail hlen2
      refine ⟨ws2, ?_⟩
      rw [poll_flush]
      simp [hn, hws2]

/-- Claim C1: when a single `decode` call yields no frame, `decode_eof`
ends the stream cleanly (no frame, no error) exactly when the buffer is
empty after that call, and otherwise fails with the trailing
"remaining bytes" error, so a truncated frame at end-of-stream is never
silently dropped. -/
theorem decode_eof_trailing (src s : List Nat) (h : decode src = .ok none s) :
    (decode_eof src = .ok none s ↔ s = []) ∧
    (s ≠ [] → decode_eof src = .err .remainingBytes s) := by
  unfold decode_eof
  rw [h]
  by_cases hs : s = [] <;> simp [hs]

/-- Witness for C1: the truncated buffer "GET" decodes to no frame and is
non-empty, so `decode_eof` fails with the remaining-bytes error. -/
theorem decode_eof_trailing_witness :
    (decode_eof [71, 69, 84] = .ok none [71, 69, 84] ↔ ([71, 69, 84] : List Nat) = []) ∧
    (([71, 69, 84] : List Nat) ≠ [] →
      decode_eof [71, 69, 84] = .err .remainingBytes [71, 69, 84]) :=
  decode_eof_trailing [71, 69, 84] [71, 69, 84] (by decide)

/-- Claim C2 (amended): a response whose status code has no known canonical
reason phrase makes `encode` panic on the `unwrap` of
`canonical_reason()`, producing no output; the failure is a panic, not an
error value returned to the caller. -/
theorem encode_unmapped_status_panics (resp : HttpResponse) (date : String)
    (dst : List Nat) (h : canonicalReason resp.status = none) :
    encode resp date dst = .panicked := by
  unfold encode
  rw [h]

/-- Counterexample for C2 as stated: at status code 599 (no canonical
reason phrase) `encode` panics; it does not surface an error value. -/
theorem encode_unmapped_status_counterexample :
    encode ⟨599, [], []⟩ "Thu, 01 Jan 1970 00:00:00 GMT" [] = .panicked ∧
    encode ⟨599, [], []⟩ "Thu, 01 Jan 1970 00:00:00 GMT" [] ≠ .ioErr := by
  constructor <;> decide

/-- Witness for the amended C2 at status code 599. -/
theorem encode_unmapped_status_panics_witness :
    encode ⟨599, [], [104, 105]⟩ "Sun, 12 Oct 2025 00:00:00 GMT" [] = .panicked :=
  encode_unmapped_status_panics ⟨599, [], [104, 105]⟩ "Sun, 12 Oct 2025 00:00:00 GMT" []
    (by decide)

/-- Claim C5: on a complete request head whose parsed version is anything
but HTTP/1.1, `decode` fails with the unrecoverable "version not
supported" error and the buffer is left unchanged (no downgrade, no
fallback). -/
theorem decode_rejects_non_http11 (src rem : List Nat) (r : HReq)
    (hp : parse 64 src = .done (r, rem)) (hv : r.version ≠ some 1) :
    decode src = .err .versionNotSupported src := by
  unfold decode
  rw [hp]
  simp [hv]

/-- Witness for C5: decoding "GET / HTTP/1.0\r\n\r\n" fails with the
unsupported-version error. -/
theorem decode_rejects_non_http11_witness :
    decode (strBytes "GET / HTTP/1.0\x0d\x0a\x0d\x0a") =
      .err .versionNotSupported (strBytes "GET / HTTP/1.0\x0d\x0a\x0d\x0a") :=
  decode_rejects_non_http11 (strBytes "GET / HTTP/1.0\x0d\x0a\x0d\x0a") []
    ⟨some [71, 69, 84], some [47], some 0, []⟩ (by decide) (by decide)

/-- Claim C3: with the read state owing a decode (`readable`) and not at
EOF, a buffer already holding complete frames yields them on successive
`poll_next` calls with the delivered-chunk sequence untouched — no network
read happens, and two back-to-back requests come out of two pulls. -/
theorem poll_next_buffered_frames_no_read (st : ReadFrame) (net : List (List Nat))
    (f1 f2 : HttpRequest) (b1 b2 : List Nat)
    (hr : st.readable = true) (he : st.eof = false)
    (h1 : decode st.buffer = .ok (some f1) b1) (h2 : decode b1 = .ok (some f2) b2) :
    poll_next st net = (.frame f1, { st with buffer := b1 }, net) ∧
    poll_next { st with buffer := b1 } net = (.frame f2, { st with buffer := b2 }, net) := by
  have hd1 : drainStep st = .inl (.frame f1, { st with buffer := b1 }) := by
    simp [drainStep, hr, he, h1]
  have hd2 : drainStep { st with buffer := b1 } = .inl (.frame f2, { st with buffer := b2 }) := by
    simp [drainStep, hr, he, h2]
  constructor
  · rw [poll_next.eq_def, hd1]
  · rw [poll_next.eq_def, hd2]

/-- Witness for C3: a buffer holding "GET / HTTP/1.1\r\n\r\n" followed by
"GET /i HTTP/1.1\r\n\r\n" yields both requests on two pulls, leaving the
pending network chunk `[88]` undelivered both times. -/
theorem poll_next_buffered_frames_no_read_witness :
    poll_next ⟨false, true, strBytes "GET / HTTP/1.1\x0d\x0a\x0d\x0aGET /i HTTP/1.1\x0d\x0a\x0d\x0a"⟩ [[88]] =
      (.frame ⟨[71, 69, 84], [47], 11, []⟩,
        ⟨false, true, strBytes "GET /i HTTP/1.1\x0d\x0a\x0d\x0a"⟩, [[88]]) ∧
    poll_next ⟨false, true, strBytes "GET /i HTTP/1.1\x0d\x0a\x0d\x0a"⟩ [[88]] =
      (.frame ⟨[71, 69, 84], [47, 105], 11, []⟩, ⟨false, true, []⟩, [[88]]) :=
  poll_next_buffered_frames_no_read
    ⟨false, true, strBytes "GET / HTTP/1.1\x0d\x0a\x0d\x0aGET /i HTTP/1.1\x0d\x0a\x0d\x0a"⟩ [[88]]
    ⟨[71, 69, 84], [47], 11, []⟩ ⟨[71, 69, 84], [47, 105], 11, []⟩
    (strBytes "GET /i HTTP/1.1\x0d\x0a\x0d\x0a") []
    rfl rfl (by decide) (by decide)

/-- Claim C9: `poll_flush` advances the buffer by exactly the byte count
each raw write reports, loops until the buffer is empty (succeeding when
the reported counts cover it), and treats a zero-byte write on a non-empty
buffer as the fatal write-zero error instead of spinning. -/
theorem poll_flush_progress (buf ws : List Nat) :
    (∀ n ws2, buf ≠ [] → n ≠ 0 → poll_flush buf (n :: ws2) = poll_flush (buf.drop n) ws2) ∧
    (∀ ws2, buf ≠ [] → poll_flush buf (0 :: ws2) = (.errWriteZero, buf, ws2)) ∧
    ((∀ m ∈ ws, 0 < m) → buf.length ≤ ws.sum →
      ∃ ws2, poll_flush buf ws = (.ok, [], ws2)) := by
  refine ⟨?_, ?_, poll_flush_drains ws buf⟩
  · intro n ws2 hb hn
    rw [poll_flush]
    simp [List.isEmpty_iff, hb, hn]
  · intro ws2 hb
    rw [poll_flush]
    simp [List.isEmpty_iff, hb]

/-- Witness for C9: a 3-byte buffer with a zero write errors out; with
writes of 2 and 1 bytes it drains to empty and succeeds. -/
theorem poll_flush_progress_witness :
    poll_flush [7, 8, 9] [0, 5] = (.errWriteZero, [7, 8, 9], [5]) ∧
    ∃ ws2, poll_flush [7, 8, 9] [2, 1] = (.ok, [], ws2) :=
  ⟨(poll_flush_progress [7, 8, 9] [2, 1]).2.1 [5] (by decide),
   (poll_flush_progress [7, 8, 9] [2, 1]).2.2 (by decide) (by decide)⟩

/-- Claim C8: the readiness check before an accept is an immediate,
I/O-free success exactly when the buffered byte count is at or below the
backpressure boundary; strictly beyond the boundary it instead performs a
flush, and the default boundary is 8192 bytes. -/
theorem poll_ready_backpressure (ws : WriteFrame) (writes : List Nat) :
    (poll_ready ws writes = (.ok, ws.buffer, writes) ↔
      ws.buffer.length ≤ ws.backpressure_boundary) ∧
    (ws.backpressure_boundary < ws.buffer.length →
      poll_ready ws writes = poll_flush ws.buffer writes) ∧
    WriteFrame.default.backpressure_boundary = 8192 := by
  refine ⟨⟨?_, ?_⟩, ?_, by decide⟩
  · intro h
    by_contra hgt
    push_neg at hgt
    have hr : poll_ready ws writes = poll_flush ws.buffer writes := by
      unfold poll_ready
      simp [hgt]
    rw [hr] at h
    have hempty := flush_ok_empty writes ws.buffer _ _ h
    rw [hempty] at h
    have : ws.buffer = [] := hempty
    rw [this] at hgt
    simp at hgt
  · intro h
    unfold poll_ready
    simp [Nat.not_lt.mpr h]
  · intro h
    unfold poll_ready
    simp [h]

/-- Witness for C8: with boundary 2, a 3-byte buffer defers to the flush
while a 1-byte buffer is ready immediately with its writes untouched. -/
theorem poll_ready_backpressure_witness :
    poll_ready ⟨2, [7, 8, 9]⟩ [5] = poll_flush [7, 8, 9] [5] ∧
    poll_ready ⟨2, [7]⟩ [5] = (.ok, [7], [5]) :=
  ⟨(poll_ready_backpressure ⟨2, [7, 8, 9]⟩ [5]).2.1 (by decide),
   (poll_ready_backpressure ⟨2, [7]⟩ [5]).1.mpr (by decide)⟩

/-- Inversion of `PStep.map` at a `done` outcome. -/
lemma PStep.map_done {α β : Type} (f : α → β) (s : PStep α) (b : β)
    (h : s.map f = .done b) : ∃ a, s = .done a ∧ b = f a := by
  cases s with
  | done a =>
    simp [PStep.map] at h
    exact ⟨a, rfl, h.symm⟩
  | more => simp [PStep.map] at h
  | fail e => simp [PStep.map] at h

/-- Inversion of `PStep.bind` at a `done` outcome. -/
lemma PStep.bind_done {α β : Type} (s : PStep α) (f : α → PStep β) (b : β)
    (h : s.bind f = .done b) : ∃ a, s = .done a ∧ f a = .done b := by
  cases s with
  | done a => exact ⟨a, rfl, h⟩
  | more => simp [PStep.bind] at h
  | fail e => simp [PStep.bind] at h

/-- A completed token scan consumed exactly the token and the stop byte. -/
lemma takeUntilByte_done (stop : Nat) (isBad : Nat → Bool) (e : PErr) :
    ∀ src tk rem, takeUntilByte stop isBad e src = .done (tk, rem) →
      src = tk ++ stop :: rem := by
  intro src
  induction src with
  | nil => intro tk rem h; simp [takeUntilByte] at h
  | cons c rest ih =>
    intro tk rem h
    simp only [takeUntilByte] at h
    by_cases hc : c = stop
    · simp [hc] at h
      obtain ⟨rfl, rfl⟩ := h
      rw [hc]
      rfl
    · by_cases hb : isBad c
      · simp [hc, hb] at h
      · rw [if_neg hc, if_neg hb] at h
        obtain ⟨⟨tk2, rem2⟩, hs, heq⟩ := PStep.map_done _ _ _ h
        simp at heq
        obtain ⟨rfl, rfl⟩ := heq
        rw [ih tk2 rem hs]
        rfl

/-- A completed exact-bytes match consumed exactly the pattern. -/
lemma expectBytes_done : ∀ (pat : List Nat) (e : PErr) (src rem : List Nat),
    expectBytes pat e src = .done rem → src = pat ++ rem := by
  intro pat
  induction pat with
  | nil =>
    intro e src rem h
    simp [expectBytes] at h
    simp [h]
  | cons q qs ih =>
    intro e src rem h
    cases src with
    | nil => simp [expectBytes] at h
    | cons c cs =>
      simp only [expectBytes] at h
      by_cases hc : c = q
      · simp [hc] at h
        rw [hc, ih e cs rem h]
        rfl
      · simp [hc] at h

/-- A completed value scan consumed exactly the value and its CRLF. -/
lemma takeValue_done : ∀ (src v rem : List Nat),
    takeValue src = .done (v, rem) → src = v ++ 13 :: 10 :: rem := by
  intro src
  induction src with
  | nil => intro v rem h; simp [takeValue] at h
  | cons c rest ih =>
    intro v rem h
    simp only [takeValue] at h
    by_cases h13 : c = 13
    · rw [if_pos h13] at h
      cases rest with
      | nil => simp at h
      | cons d rem2 =>
        by_cases h10 : d = 10
        · simp [h10] at h
          obtain ⟨rfl, rfl⟩ := h
          rw [h13, h10]
          rfl
        · simp [h10] at h
    · by_cases h10 : c = 10
      · simp [h13, h10] at h
      · simp only [if_neg h13, if_neg h10] at h
        obtain ⟨⟨v2, rem2⟩, hs, heq⟩ := PStep.map_done _ _ _ h
        simp at heq
        obtain ⟨rfl, rfl⟩ := heq
        rw [ih v2 rem hs]
        rfl

/-- A completed version parse consumed a prefix of the buffer. -/
lemma parseVersion_done : ∀ (src : List Nat) (v : Nat) (rem : List Nat),
    parseVersion src = .done (v, rem) → ∃ pre, src = pre ++ rem := by
  intro src v rem h
  unfold parseVersion at h
  obtain ⟨r1, he, hrest⟩ := PStep.bind_done _ _ _ h
  have h1 := expectBytes_done _ _ _ _ he
  cases r1 with
  | nil => simp [versionDigit] at hrest
  | cons c r2 =>
    simp only [versionDigit] at hrest
    by_cases h48 : c = 48
    · rw [if_pos h48] at hrest
      obtain ⟨rem2, hexp, heq⟩ := PStep.map_done _ _ _ hrest
      simp at heq
      obtain ⟨rfl, rfl⟩ := heq
      have h2 := expectBytes_done _ _ _ _ hexp
      refine ⟨strBytes "HTTP/1." ++ c :: [13, 10], ?_⟩
      rw [h1, h2]
      simp
    · by_cases h49 : c = 49
      · rw [if_neg h48, if_pos h49] at hrest
        obtain ⟨rem2, hexp, heq⟩ := PStep.map_done _ _ _ hrest
        simp at heq
        obtain ⟨rfl, rfl⟩ := heq
        have h2 := expectBytes_done _ _ _ _ hexp
        refine ⟨strBytes "HTTP/1." ++ c :: [13, 10], ?_⟩
        rw [h1, h2]
        simp
      · simp [h48, h49] at hrest

/-- A completed header line consumed a prefix of the buffer. -/
lemma parseHeaderLine_done : ∀ (src : List Nat) (hv : List Nat × List Nat)
    (rem : List Nat), parseHeaderLine src = .done (hv, rem) →
      ∃ pre, src = pre ++ rem := by
  intro src hv rem hp
  unfold parseHeaderLine at hp
  obtain ⟨⟨name, r1⟩, hname, hrest⟩ := PStep.bind_done _ _ _ hp
  by_cases hne : name.isEmpty
  · simp [hne] at hrest
  · simp only [hne, Bool.false_eq_true, if_false] at hrest
    obtain ⟨⟨v, rem2⟩, hval, heq⟩ := PStep.map_done _ _ _ hrest
    simp at heq
    obtain ⟨rfl, rfl⟩ := heq
    have h1 := takeUntilByte_done 58 crlfByte .headerName src name r1 hname
    have h2 := takeValue_done _ v rem hval
    have h3 : r1 = r1.takeWhile isSpTab ++ (v ++ 13 :: 10 :: rem) := by
      conv_lhs => rw [← List.takeWhile_append_dropWhile isSpTab r1]
      rw [h2]
    obtain ⟨tw, h4⟩ : ∃ tw, r1 = tw ++ (v ++ 13 :: 10 :: rem) := ⟨_, h3⟩
    refine ⟨name ++ 58 :: (tw ++ v ++ [13, 10]), ?_⟩
    rw [h1, h4]
    simp

/-- The blank line ending the header block is a CR already seen plus a LF. -/
lemma headersEnd_done : ∀ (rest : List Nat) (hs : List (List Nat × List Nat))
    (rem : List Nat), headersEnd rest = .done (hs, rem) →
      rest = 10 :: rem ∧ hs = [] := by
  intro rest hs rem h
  cases rest with
  | nil => simp [headersEnd] at h
  | cons d rem2 =>
    by_cases hd : d = 10
    · simp [headersEnd, hd] at h
      obtain ⟨rfl, rfl⟩ := h
      exact ⟨by rw [hd], rfl⟩
    · simp [headersEnd, hd] at h

/-- A completed header block consumed a prefix ending in the terminating
blank line (CRLF). -/
lemma parseHeaders_done : ∀ (avail : Nat) (src : List Nat)
    (hs : List (List Nat × List Nat)) (rem : List Nat),
    parseHeaders avail src = .done (hs, rem) →
      ∃ pre, src = pre ++ 13 :: 10 :: rem := by
  intro avail
  induction avail with
  | zero =>
    intro src hs rem h
    cases src with
    | nil => simp [parseHeaders] at h
    | cons c rest =>
      simp only [parseHeaders] at h
      by_cases hc : c = 13
      · rw [if_pos hc] at h
        obtain ⟨h1, _⟩ := headersEnd_done _ _ _ h
        refine ⟨[], ?_⟩
        rw [hc, h1]
        simp
      · simp [hc] at h
  | succ a ih =>
    intro src hs rem h
    cases src with
    | nil => simp [parseHeaders] at h
    | cons c rest =>
      simp only [parseHeaders] at h
      by_cases hc : c = 13
      · rw [if_pos hc] at h
        obtain ⟨h1, _⟩ := headersEnd_done _ _ _ h
        refine ⟨[], ?_⟩
        rw [hc, h1]
        simp
      · rw [if_neg hc] at h
        obtain ⟨⟨h1, rem1⟩, hline, hrest⟩ := PStep.bind_done _ _ _ h
        obtain ⟨⟨hs2, rem2⟩, hpars, heq⟩ := PStep.map_done _ _ _ hrest
        simp at heq
        obtain ⟨rfl, rfl⟩ := heq
        obtain ⟨pre1, hpre1⟩ := parseHeaderLine_done _ _ _ hline
        obtain ⟨pre2, hpre2⟩ := ih rem1 hs2 rem hpars
        refine ⟨pre1 ++ pre2, ?_⟩
        rw [hpre1, hpre2]
        simp

/-- A complete parse consumed a prefix ending in the blank line, and filled
in the method and path fields of the request struct. -/
lemma parse_done (mh : Nat) (src : List Nat) (r : HReq) (rem : List Nat)
    (h : parse mh src = .done (r, rem)) :
    (∃ pre, src = pre ++ 13 :: 10 :: rem) ∧
      r.method.isSome = true ∧ r.path.isSome = true := by
  unfold parse at h
  obtain ⟨⟨m, r1⟩, hm, h⟩ := PStep.bind_done _ _ _ h
  by_cases hme : m.isEmpty
  · simp [hme] at h
  · simp only [hme, Bool.false_eq_true, if_false] at h
    obtain ⟨⟨p, r2⟩, hp2, h⟩ := PStep.bind_done _ _ _ h
    by_cases hpe : p.isEmpty
    · simp [hpe] at h
    · simp only [hpe, Bool.false_eq_true, if_false] at h
      obtain ⟨⟨v, r3⟩, hv, h⟩ := PStep.bind_done _ _ _ h
      obtain ⟨⟨hs, r4⟩, hh, heq⟩ := PStep.map_done _ _ _ h
      simp at heq
      obtain ⟨rfl, rfl⟩ := heq
      have e1 := takeUntilByte_done _ _ _ _ _ _ hm
      have e2 := takeUntilByte_done _ _ _ _ _ _ hp2
      obtain ⟨pre3, e3⟩ := parseVersion_done _ _ _ hv
      obtain ⟨pre4, e4⟩ := parseHeaders_done _ _ _ _ hh
      have e4b : r3 = pre4 ++ 13 :: 10 :: rem := e4
      refine ⟨⟨m ++ 32 :: (p ++ 32 :: (pre3 ++ pre4)), ?_⟩, rfl, rfl⟩
      rw [e1, e2, e3, e4b]
      simp

/-- Claim C6: a `decode` that yields no frame leaves the buffer completely
unchanged, and a successful `decode` consumes exactly the bytes from the
head of the buffer through the terminating blank line (CRLF), leaving
everything after it — in particular any body bytes — in the buffer. -/
theorem decode_consumption (src : List Nat) :
    (∀ s, decode src = .ok none s → s = src) ∧
    (∀ f s, decode src = .ok (some f) s → ∃ pre, src = (pre ++ [13, 10]) ++ s) := by
  constructor
  · intro s h
    unfold decode at h
    cases hp : parse 64 src with
    | more =>
      rw [hp] at h
      simp at h
      exact h.symm
    | fail e => rw [hp] at h; simp at h
    | done pr =>
      obtain ⟨r, rem⟩ := pr
      rw [hp] at h
      obtain ⟨_, hm, hpth⟩ := parse_done 64 src r rem hp
      obtain ⟨m, hm2⟩ := Option.isSome_iff_exists.mp hm
      obtain ⟨p, hp2⟩ := Option.isSome_iff_exists.mp hpth
      by_cases hv : r.version = some 1 <;> simp [hv, hm2, hp2] at h
  · intro f s h
    unfold decode at h
    cases hp : parse 64 src with
    | more => rw [hp] at h; simp at h
    | fail e => rw [hp] at h; simp at h
    | done pr =>
      obtain ⟨r, rem⟩ := pr
      rw [hp] at h
      obtain ⟨⟨pre, hsuf⟩, hm, hpth⟩ := parse_done 64 src r rem hp
      obtain ⟨m, hm2⟩ := Option.isSome_iff_exists.mp hm
      obtain ⟨p, hp2⟩ := Option.isSome_iff_exists.mp hpth
      by_cases hv : r.version = some 1
      · simp [hv, hm2, hp2] at h
        have hsplit : src = (pre ++ [13, 10]) ++ rem := by
          rw [hsuf]
          simp
        have hlen : src.length - rem.length = (pre ++ [13, 10]).length := by
          rw [hsplit]
          simp
          omega
        have hdrop : src.drop (src.length - rem.length) = rem := by
          rw [hlen, hsplit]
          exact List.drop_left _ _
        rw [hdrop] at h
        refine ⟨pre, ?_⟩
        rw [hsuf, ← h.2]
        simp
      · simp [hv] at h

/-- Witness for C6: the buffer holding one complete head followed by the
two bytes "XY" is consumed exactly through the blank line, leaving "XY". -/
theorem decode_consumption_witness :
    ∃ pre, strBytes "GET / HTTP/1.1\x0d\x0a\x0d\x0aXY" = (pre ++ [13, 10]) ++ [88, 89] :=
  (decode_consumption (strBytes "GET / HTTP/1.1\x0d\x0a\x0d\x0aXY")).2
    ⟨[71, 69, 84], [47], 11, []⟩ [88, 89] (by decide)

/-- Claim C10: `decode` is total and never reaches its panic branch: every
buffer yields a frame, no frame yet, or an error value, because on every
complete head the parser has necessarily filled in the method and the
target path, so their unwraps always find a value. -/
theorem decode_total (src : List Nat) :
    decode src ≠ .panicked ∧
    (∀ r rem, parse 64 src = .done (r, rem) →
      r.method.isSome = true ∧ r.path.isSome = true) := by
  constructor
  · intro h
    unfold decode at h
    cases hp : parse 64 src with
    | more => rw [hp] at h; simp at h
    | fail e => rw [hp] at h; simp at h
    | done pr =>
      obtain ⟨r, rem⟩ := pr
      rw [hp] at h
      obtain ⟨_, hm, hpth⟩ := parse_done 64 src r rem hp
      obtain ⟨m, hm2⟩ := Option.isSome_iff_exists.mp hm
      obtain ⟨p, hp2⟩ := Option.isSome_iff_exists.mp hpth
      by_cases hv : r.version = some 1 <;> simp [hv, hm2, hp2] at h
  · intro r rem hp
    exact (parse_done 64 src r rem hp).2

/-- Witness for C10: evaluated on a complete request head, decode does not
panic and the parsed struct has method and path present. -/
theorem decode_total_witness :
    decode (strBytes "GET / HTTP/1.1\x0d\x0a\x0d\x0a") ≠ .panicked ∧
    ((⟨some [71, 69, 84], some [47], some 1, []⟩ : HReq).method.isSome = true ∧
      (⟨some [71, 69, 84], some [47], some 1, []⟩ : HReq).path.isSome = true) :=
  ⟨(decode_total (strBytes "GET / HTTP/1.1\x0d\x0a\x0d\x0a")).1,
   (decode_total (strBytes "GET / HTTP/1.1\x0d\x0a\x0d\x0a")).2
     ⟨some [71, 69, 84], some [47], some 1, []⟩ [] (by decide)⟩

/-- Wire rendering of a header block: one `Name: value CRLF` line per
header, then the terminating blank line, then `tail`. -/
def renderHeaders : List (List Nat × List Nat) → List Nat → List Nat
  | [], tail => 13 :: 10 :: tail
  | h :: t, tail => h.1 ++ 58 :: 32 :: (h.2 ++ 13 :: 10 :: renderHeaders t tail)

/-- Wire rendering of a complete HTTP/1.1 request head
`METHOD SP target SP HTTP/1.1 CRLF` + header lines + blank line
(spec section 6). -/
def renderRequest (m p : List Nat) (hs : List (List Nat × List Nat)) : List Nat :=
  m ++ 32 :: (p ++ 32 :: (strBytes "HTTP/1." ++ 49 :: 13 :: 10 :: renderHeaders hs []))

/-- A byte allowed in a header name: not the colon, CR or LF. -/
def goodNameByte (b : Nat) : Bool := !(b = 58 || b = 13 || b = 10)

/-- A byte allowed in a header value: not CR or LF. -/
def goodValueByte (b : Nat) : Bool := !(b = 13 || b = 10)

/-- Well-formedness of a rendered header: non-empty name of name bytes,
value of value bytes not beginning with the optional whitespace that the
parser skips after the colon. -/
def wfHeaderB (h : List Nat × List Nat) : Bool :=
  !h.1.isEmpty && h.1.all goodNameByte && h.2.all goodValueByte &&
    (match h.2 with
     | [] => true
     | b :: _ => !isSpTab b)

/-- Well-formedness of a method or target token: non-empty, no space, CR
or LF bytes. -/
def wfTokenB (t : List Nat) : Bool :=
  !t.isEmpty && t.all fun b => !(b = 32 || b = 13 || b = 10)

/-- Unfolded consequences of header well-formedness. -/
lemma wfHeaderB_parts (name value : List Nat) (h : wfHeaderB (name, value) = true) :
    name ≠ [] ∧ (∀ b ∈ name, b ≠ 58 ∧ crlfByte b = false) ∧
      (∀ b ∈ value, b ≠ 13 ∧ b ≠ 10) ∧
      (∀ b tlv, value = b :: tlv → isSpTab b = false) := by
  simp only [wfHeaderB, Bool.and_eq_true, List.all_eq_true] at h
  obtain ⟨⟨⟨h1, h2⟩, h3⟩, h4⟩ := h
  refine ⟨?_, ?_, ?_, ?_⟩
  · intro hn
    rw [hn] at h1
    simp at h1
  · intro b hb
    have := h2 b hb
    simp [goodNameByte] at this
    exact ⟨this.1.1, by simp [crlfByte, this.1.2, this.2]⟩
  · intro b hb
    have := h3 b hb
    simp [goodValueByte] at this
    exact this
  · intro b tlv hv
    rw [hv] at h4
    simp at h4
    simp [h4]

/-- Unfolded consequences of token well-formedness. -/
lemma wfTokenB_parts (t : List Nat) (h : wfTokenB t = true) :
    t.isEmpty = false ∧ ∀ b ∈ t, b ≠ 32 ∧ crlfByte b = false := by
  simp only [wfTokenB, Bool.and_eq_true, List.all_eq_true] at h
  obtain ⟨h1, h2⟩ := h
  constructor
  · simpa using h1
  · intro b hb
    have := h2 b hb
    simp at this
    exact ⟨this.1.1, by simp [crlfByte, this.1.2, this.2]⟩

/-- A token followed by its stop byte scans to exactly that token. -/
lemma takeUntilByte_render (stop : Nat) (isBad : Nat → Bool) (e : PErr)
    (tk rest : List Nat) (h : ∀ b ∈ tk, b ≠ stop ∧ isBad b = false) :
    takeUntilByte stop isBad e (tk ++ stop :: rest) = .done (tk, rest) := by
  induction tk with
  | nil => simp [takeUntilByte]
  | cons c tl ih =>
    obtain ⟨hc, hb⟩ := h c (by simp)
    have htl : ∀ b ∈ tl, b ≠ stop ∧ isBad b = false := fun b hb2 => h b (by simp [hb2])
    simp [takeUntilByte, hc, hb, ih htl, PStep.map]

/-- A pattern at the head of the input matches itself. -/
lemma expectBytes_render (pat : List Nat) (e : PErr) (rest : List Nat) :
    expectBytes pat e (pat ++ rest) = .done rest := by
  induction pat with
  | nil => simp [expectBytes]
  | cons q qs ih => simp [expectBytes, ih]

/-- A CR/LF-free value followed by CRLF scans to exactly that value. -/
lemma takeValue_render (v rest : List Nat) (h : ∀ b ∈ v, b ≠ 13 ∧ b ≠ 10) :
    takeValue (v ++ 13 :: 10 :: rest) = .done (v, rest) := by
  induction v with
  | nil => simp [takeValue]
  | cons c tl ih =>
    obtain ⟨h13, h10⟩ := h c (by simp)
    have htl : ∀ b ∈ tl, b ≠ 13 ∧ b ≠ 10 := fun b hb2 => h b (by simp [hb2])
    simp [takeValue, h13, h10, ih htl, PStep.map]

/-- The version segment `HTTP/1.1 CRLF` parses to minor version 1. -/
lemma parseVersion_render (rest : List Nat) :
    parseVersion (strBytes "HTTP/1." ++ 49 :: 13 :: 10 :: rest) = .done (1, rest) := by
  unfold parseVersion
  rw [expectBytes_render]
  simp [PStep.bind, versionDigit, expectBytes, PStep.map]

/-- A well-formed rendered header line parses back to itself. -/
lemma parseHeaderLine_render (name value rest : List Nat)
    (hwf : wfHeaderB (name, value) = true) :
    parseHeaderLine (name ++ 58 :: 32 :: (value ++ 13 :: 10 :: rest)) =
      .done ((name, value), rest) := by
  obtain ⟨hne, hnb, hvb, hvh⟩ := wfHeaderB_parts name value hwf
  unfold parseHeaderLine
  rw [takeUntilByte_render 58 crlfByte .headerName name _ hnb]
  have hnemp : name.isEmpty = false := by
    cases name with
    | nil => exact absurd rfl hne
    | cons a b => rfl
  simp only [PStep.bind, hnemp, Bool.false_eq_true, if_false]
  have hdw : List.dropWhile isSpTab (32 :: (value ++ 13 :: 10 :: rest)) =
      value ++ 13 :: 10 :: rest := by
    rw [List.dropWhile_cons]
    have : isSpTab 32 = true := by decide
    rw [if_pos this]
    cases value with
    | nil => simp [List.dropWhile_cons, isSpTab]
    | cons b tlv =>
      rw [List.cons_append, List.dropWhile_cons]
      rw [if_neg (by simp [hvh b tlv rfl])]
  rw [hdw, takeValue_render value rest hvb]
  simp [PStep.map]

/-- A well-formed rendered header block parses back to itself when it fits
in the available header slots, and fails with the too-many-headers error
when it does not. -/
lemma parseHeaders_render : ∀ (hs : List (List Nat × List Nat)) (avail : Nat)
    (tail : List Nat), (∀ h ∈ hs, wfHeaderB h = true) →
    parseHeaders avail (renderHeaders hs tail) =
      if hs.length ≤ avail then .done (hs, tail) else .fail .tooManyHeaders := by
  intro hs
  induction hs with
  | nil =>
    intro avail tail _
    simp only [renderHeaders, List.length_nil, Nat.zero_le, if_pos]
    cases avail <;> simp [parseHeaders, headersEnd]
  | cons hd tl ih =>
    intro avail tail hwf
    obtain ⟨name, value⟩ := hd
    have hhd : wfHeaderB (name, value) = true := hwf _ (by simp)
    have htl : ∀ h ∈ tl, wfHeaderB h = true := fun h hh => hwf h (by simp [hh])
    obtain ⟨hne, hnb, _, _⟩ := wfHeaderB_parts name value hhd
    cases name with
    | nil => exact absurd rfl hne
    | cons n ntl =>
      have hn13 : ¬(n = 13) := by
        have := (hnb n (by simp)).2
        simp [crlfByte] at this
        exact this.1
      simp only [renderHeaders, List.cons_append]
      cases avail with
      | zero =>
        rw [show parseHeaders 0
            (n :: (ntl ++ 58 :: 32 :: (value ++ 13 :: 10 :: renderHeaders tl tail))) =
            .fail .tooManyHeaders from by simp [parseHeaders, hn13]]
        rw [if_neg (by simp)]
      | succ a =>
        simp only [parseHeaders, if_neg hn13]
        rw [← List.cons_append]
        rw [parseHeaderLine_render (n :: ntl) value (renderHeaders tl tail) hhd]
        simp only [PStep.bind]
        rw [ih a tail htl]
        by_cases hsl : tl.length ≤ a
        · rw [if_pos hsl, if_pos (by simpa using Nat.succ_le_succ hsl)]
          simp [PStep.map]
        · rw [if_neg hsl, if_neg (by simp [hsl])]
          simp [PStep.map]

/-- A well-formed rendered request head parses back to its fields when the
headers fit in the available slots, else fails with too-many-headers. -/
lemma parse_render (m p : List Nat) (hs : List (List Nat × List Nat)) (mh : Nat)
    (hm : wfTokenB m = true) (hp : wfTokenB p = true)
    (hh : ∀ h ∈ hs, wfHeaderB h = true) :
    parse mh (m ++ 32 :: (p ++ 32 :: (strBytes "HTTP/1." ++ 49 :: 13 :: 10 ::
        renderHeaders hs []))) =
      if hs.length ≤ mh then .done (⟨some m, some p, some 1, hs⟩, [])
      else .fail .tooManyHeaders := by
  obtain ⟨hme, hmb⟩ := wfTokenB_parts m hm
  obtain ⟨hpe, hpb⟩ := wfTokenB_parts p hp
  unfold parse
  rw [takeUntilByte_render 32 crlfByte .token m _ hmb]
  simp only [PStep.bind, hme, Bool.false_eq_true, if_false]
  rw [takeUntilByte_render 32 crlfByte .token p _ hpb]
  simp only [PStep.bind, hpe, Bool.false_eq_true, if_false]
  rw [parseVersion_render]
  simp only [PStep.bind]
  rw [parseHeaders_render hs mh [] hh]
  by_cases hsl : hs.length ≤ mh
  · rw [if_pos hsl, if_pos hsl]
    simp [PStep.map]
  · rw [if_neg hsl, if_neg hsl]
    simp [PStep.map]

/-- Claim C4: a well-formed request head whose header block fits in the 64
header slots (in particular one with exactly 64 header lines) decodes
successfully to all its fields, while one with 65 or more header lines
fails with the fatal too-many-headers parse error. -/
theorem decode_header_count_limit (m p : List Nat) (hs : List (List Nat × List Nat))
    (hm : wfTokenB m = true) (hp : wfTokenB p = true)
    (hh : ∀ h ∈ hs, wfHeaderB h = true) :
    (hs.length ≤ 64 →
      decode (renderRequest m p hs) = .ok (some ⟨m, p, 11, hs⟩) []) ∧
    (65 ≤ hs.length →
      decode (renderRequest m p hs) =
        .err (.parseErr .tooManyHeaders) (renderRequest m p hs)) := by
  have hparse := parse_render m p hs 64 hm hp hh
  constructor
  · intro hlen
    unfold decode renderRequest
    rw [hparse, if_pos hlen]
    simp [List.drop_length]
  · intro hlen
    have hgt : ¬(hs.length ≤ 64) := by omega
    unfold decode renderRequest
    rw [hparse, if_neg hgt]

/-- Witness for C4: a head with exactly 64 copies of the header "A: b"
decodes successfully; with 65 copies it fails with too-many-headers. -/
theorem decode_header_count_limit_witness :
    decode (renderRequest [71, 69, 84] [47] (List.replicate 64 ([65], [98]))) =
      .ok (some ⟨[71, 69, 84], [47], 11, List.replicate 64 ([65], [98])⟩) [] ∧
    decode (renderRequest [71, 69, 84] [47] (List.replicate 65 ([65], [98]))) =
      .err (.parseErr .tooManyHeaders)
        (renderRequest [71, 69, 84] [47] (List.replicate 65 ([65], [98]))) :=
  ⟨(decode_header_count_limit [71, 69, 84] [47] (List.replicate 64 ([65], [98]))
      (by decide) (by decide) (by decide)).1 (by decide),
   (decode_header_count_limit [71, 69, 84] [47] (List.replicate 65 ([65], [98]))
      (by decide) (by decide) (by decide)).2 (by decide)⟩

/-- Byte transcription distributes over string concatenation. -/
lemma strBytes_append (s t : String) : strBytes (s ++ t) = strBytes s ++ strBytes t := by
  simp [strBytes, String.data_append]

/-- The CRLF string transcribes to the bytes 13, 10. -/
lemma strBytes_crlf : strBytes "\x0d\x0a" = [13, 10] := by decide

/-- Appending rendered header lines preserves a trailing CRLF: every header
line itself ends in CRLF. -/
lemma headers_keep_crlf (hs : List (String × Option String)) :
    ∀ s : List Nat, (∃ q, s = q ++ [13, 10]) →
      ∃ q, s ++ (hs.map fun kv => strBytes (renderHeader kv)).flatten = q ++ [13, 10] := by
  induction hs with
  | nil =>
    intro s h
    simpa using h
  | cons kv t ih =>
    intro s h
    have hstep : ∃ q, s ++ strBytes (renderHeader kv) = q ++ [13, 10] := by
      refine ⟨s ++ (strBytes kv.1 ++ strBytes ": " ++ strBytes (kv.2.getD "")), ?_⟩
      simp [renderHeader, strBytes_append, strBytes_crlf, List.append_assoc]
    obtain ⟨q2, hq2⟩ := ih (s ++ strBytes (renderHeader kv)) hstep
    refine ⟨q2, ?_⟩
    rw [List.map_cons, List.flatten_cons, ← List.append_assoc]
    exact hq2

/-- Claim C7: for every response whose status code is mapped, `encode`
appends output that begins with the status line
`HTTP/1.1 <code> <reason> CRLF`, contains a `Content-Length` header whose
value is the exact byte length of the body, and ends with a blank line
followed by the body bytes verbatim. -/
theorem encode_output_shape (resp : HttpResponse) (date : String) (dst : List Nat)
    (reason : String) (h : canonicalReason resp.status = some reason) :
    ∃ out, encode resp date dst = .ok (dst ++ out) ∧
      (∃ r1, out =
        strBytes ("HTTP/1.1 " ++ toString resp.status ++ " " ++ reason ++ "\x0d\x0a") ++ r1) ∧
      (∃ a b, out =
        a ++ strBytes ("Content-Length: " ++ toString resp.body.length ++ "\x0d\x0a") ++ b) ∧
      (∃ q, out = q ++ [13, 10, 13, 10] ++ resp.body) := by
  unfold encode
  rw [h]
  refine ⟨strBytes (statusLine resp.status reason date resp.body.length) ++
    ((resp.headers.map fun kv => strBytes (renderHeader kv)).flatten ++
      (strBytes "\x0d\x0a" ++ resp.body)), by simp, ?_, ?_, ?_⟩
  · refine ⟨strBytes "Server: dirtio-http\x0d\x0a" ++ (strBytes "Date: " ++
      (strBytes date ++ (strBytes "\x0d\x0a" ++ (strBytes "Content-Length: " ++
      (strBytes (toString resp.body.length) ++ (strBytes "\x0d\x0a" ++
      ((resp.headers.map fun kv => strBytes (renderHeader kv)).flatten ++
        (strBytes "\x0d\x0a" ++ resp.body)))))))), ?_⟩
    simp [statusLine, strBytes_append, List.append_assoc]
  · refine ⟨strBytes "HTTP/1.1 " ++ (strBytes (toString resp.status) ++ (strBytes " " ++
      (strBytes reason ++ (strBytes "\x0d\x0a" ++ (strBytes "Server: dirtio-http\x0d\x0a" ++
      (strBytes "Date: " ++ (strBytes date ++ strBytes "\x0d\x0a"))))))),
      (resp.headers.map fun kv => strBytes (renderHeader kv)).flatten ++
        (strBytes "\x0d\x0a" ++ resp.body), ?_⟩
    simp [statusLine, strBytes_append, List.append_assoc]
  · have hend : ∃ q0, strBytes (statusLine resp.status reason date resp.body.length) =
        q0 ++ [13, 10] := by
      refine ⟨strBytes "HTTP/1.1 " ++ (strBytes (toString resp.status) ++ (strBytes " " ++
        (strBytes reason ++ (strBytes "\x0d\x0a" ++ (strBytes "Server: dirtio-http\x0d\x0a" ++
        (strBytes "Date: " ++ (strBytes date ++ (strBytes "\x0d\x0a" ++
        (strBytes "Content-Length: " ++ strBytes (toString resp.body.length)))))))))), ?_⟩
      simp [statusLine, strBytes_append, strBytes_crlf, List.append_assoc]
    obtain ⟨q, hq⟩ := headers_keep_crlf resp.headers _ hend
    refine ⟨q, ?_⟩
    rw [strBytes_crlf, ← List.append_assoc, hq]
    simp

/-- Witness for C7 at the spec's scenario: status 200, body "hi". -/
theorem encode_output_shape_witness :
    ∃ out, encode ⟨200, [], strBytes "hi"⟩ "Thu, 01 Jan 1970 00:00:00 GMT" [] =
        .ok ([] ++ out) ∧
      (∃ r1, out = strBytes ("HTTP/1.1 " ++ toString (200 : Nat) ++ " " ++ "OK" ++
        "\x0d\x0a") ++ r1) ∧
      (∃ a b, out = a ++ strBytes ("Content-Length: " ++
        toString (strBytes "hi").length ++ "\x0d\x0a") ++ b) ∧
      (∃ q, out = q ++ [13, 10, 13, 10] ++ strBytes "hi") :=
  encode_output_shape ⟨200, [], strBytes "hi"⟩ "Thu, 01 Jan 1970 00:00:00 GMT" [] "OK"
    (by decide)

end DirtioHttp
